import Mathlib

/-!
Verification of the EnterpriseClaw orchestration engine's specification
against the repository's code.

The repository snapshot holds the React dashboard
(src/enterprise_core/app/static/react-ui and src/unnamed), the end-to-end
test script src/e2e_test.sh and the README; the FastAPI backend and the
worker (orchestrator, execution loop, communication bus) are not part of
it. Definitions taken from a file of the repository name that file and the
symbol they embed; where a claim's deciding code is missing, the definition
is modelled from the specification's words and its doc comment starts with
"Modelled from the spec". Definitions whose doc comment starts with
"Stated from the spec's words" restate a vocabulary the spec claims, so it
can be compared with what the source enumerates.
-/

namespace EnterpriseClaw

/- ════════════════════════ DEFINITIONS ════════════════════════ -/

/-- Modelled from the spec: the task status values of the data model (the
status state machine lives in the backend worker, which is not in the
repository's files). -/
inductive TaskStatus where
| QUEUED
| PENDING
| IN_PROGRESS
| SUCCESS
| FAILURE
| PARTIAL_SUCCESS
deriving DecidableEq, Repr, Fintype

/-- Modelled from the spec: SUCCESS, FAILURE and PARTIAL_SUCCESS are the
terminal statuses. -/
def TaskStatus.isTerminal : TaskStatus → Bool
| .SUCCESS => true
| .FAILURE => true
| .PARTIAL_SUCCESS => true
| _ => false

/-- Position of a status along the lifecycle QUEUED → PENDING → IN_PROGRESS
→ terminal. -/
def statusRank : TaskStatus → Nat
| .QUEUED => 0
| .PENDING => 1
| .IN_PROGRESS => 2
| _ => 3

/-- Modelled from the spec: the status transitions the worker may take —
QUEUED→PENDING→IN_PROGRESS→ one of the three terminal statuses; a terminal
status has no successor. -/
def statusStep : TaskStatus → TaskStatus → Bool
| .QUEUED, .PENDING => true
| .PENDING, .IN_PROGRESS => true
| .IN_PROGRESS, .SUCCESS => true
| .IN_PROGRESS, .FAILURE => true
| .IN_PROGRESS, .PARTIAL_SUCCESS => true
| _, _ => false

/-- How a status is serialized at the public interface, as the amended C6
records it: queue-side statuses are written by the API in upper case, the
statuses the worker writes are lower case (see statusChipKeys,
statusColorsKeys and e2eSuccessStatus, all taken from the source). -/
def statusString : TaskStatus → String
| .QUEUED => "QUEUED"
| .PENDING => "PENDING"
| .IN_PROGRESS => "in_progress"
| .SUCCESS => "success"
| .FAILURE => "failure"
| .PARTIAL_SUCCESS => "partial_success"

/-- The status values in constructor order. -/
def allStatuses : List TaskStatus :=
  [.QUEUED, .PENDING, .IN_PROGRESS, .SUCCESS, .FAILURE, .PARTIAL_SUCCESS]

/-- From src/enterprise_core/app/static/react-ui/AgentComm.jsx, statusChip
(lines 124-140): the status keys its MAP styles, in source order. -/
def statusChipKeys : List String :=
  ["success", "SUCCESS", "failure", "FAILURE", "QUEUED", "PENDING",
   "partial_success", "in_progress"]

/-- From src/enterprise_core/app/static/react-ui/ExecutionLogs.jsx,
STATUS_COLORS (lines 38-46): the status keys it styles, in source order. -/
def statusColorsKeys : List String :=
  ["success", "SUCCESS", "failure", "FAILURE", "PENDING", "QUEUED",
   "in_progress"]

/-- From src/e2e_test.sh, Test 6 (Verify Task in Logs): the literal status
value the test requires a completed task to show in /api/task-logs. -/
def e2eSuccessStatus : String := "success"

/-- From src/e2e_test.sh, Test 6: the status values the test treats as the
task still waiting for the worker. -/
def e2ePendingStatuses : List String := ["QUEUED", "PENDING"]

/-- Stated from the spec's words, for comparison with the source: the six
status values the spec's data model names. -/
def specClaimedStatusValues : List String :=
  ["QUEUED", "PENDING", "IN_PROGRESS", "SUCCESS", "FAILURE",
   "PARTIAL_SUCCESS"]

/-- The status vocabulary the public interface actually exposes, as
witnessed by the source: the two queue-side values in upper case and the
worker-written values in lower case. -/
def exposedStatusValues : List String := allStatuses.map statusString

/-- Modelled from the spec as amended by the dashboard's message-type maps
(msgTypeColorMap, msgTypeIconMap below): the bus message types; the
dashboard enumerates `info` where the spec's text says `direct`. -/
inductive MsgType where
| info
| delegate
| result
| broadcast
| query
| error
deriving DecidableEq, Repr, Fintype

/-- The wire name of a message type. -/
def MsgType.asString : MsgType → String
| .info => "info"
| .delegate => "delegate"
| .result => "result"
| .broadcast => "broadcast"
| .query => "query"
| .error => "error"

/-- The message types in the order the dashboard's maps enumerate them. -/
def allMsgTypes : List MsgType :=
  [.delegate, .result, .broadcast, .info, .query, .error]

/-- From src/enterprise_core/app/static/react-ui/AgentComm.jsx, msgTypeColor
(lines 108-114): the per-type color MAP, in source order. -/
def msgTypeColorMap : List (String × String) :=
  [("delegate", "#f39c12"), ("result", "#2ecc71"), ("broadcast", "#9b59b6"),
   ("info", "#4a90e2"), ("query", "#1abc9c"), ("error", "#e74c3c")]

/-- From src/enterprise_core/app/static/react-ui/AgentComm.jsx, msgTypeColor:
lookup in the MAP with the source's default color. -/
def msgTypeColor (t : String) : String :=
  (msgTypeColorMap.lookup t).getD "#6c7293"

/-- From src/enterprise_core/app/static/react-ui/AgentComm.jsx, msgTypeIcon
(lines 116-122): the per-type icon MAP, in source order. -/
def msgTypeIconMap : List (String × String) :=
  [("delegate", "📤"), ("result", "✅"), ("broadcast", "📡"),
   ("info", "ℹ️"), ("query", "❓"), ("error", "❌")]

/-- From src/enterprise_core/app/static/react-ui/AgentComm.jsx, msgTypeIcon:
lookup in the MAP with the source's default icon. -/
def msgTypeIcon (t : String) : String :=
  (msgTypeIconMap.lookup t).getD "💬"

/-- Stated from the spec's words, for comparison with the source: the
message type vocabulary the spec claims. -/
def specClaimedMsgTypes : List String :=
  ["direct", "delegate", "result", "broadcast", "query", "error"]

/-- Modelled from the spec, with amended C9's type vocabulary, and from the
dashboard's message rendering (AgentComm.jsx reads msg.sender, msg.receiver,
msg.type, msg.content and msg.timestamp, and fetches messages per task): a
bus Message. -/
structure Message where
  sender : String
  receiver : String
  type : MsgType
  content : String
  task_id : Nat
  timestamp : Nat
deriving DecidableEq, Repr

/-- From src/unnamed/part_006, Sidebar handleTaskSubmit (lines 348-353): the
agent name submitted is the selected agent, or the literal Auto when none is
selected (JavaScript `selectedAgent || 'Auto'`, where both null and the
empty string are falsy). -/
def sidebarAgentName (selectedAgent : Option String) : String :=
  match selectedAgent with
  | none => "Auto"
  | some s => if s = "" then "Auto" else s

/-- From src/unnamed/part_007, App handleTaskSubmit (lines 82-90): the keys
of the JSON body it posts to /api/tasks, in source order. -/
def handleTaskSubmitKeys : List String :=
  ["task", "tenant_id", "persona_name", "session_id", "source"]

/-- From src/e2e_test.sh, Test 8 (Webhook, lines 270-281): the keys of the
JSON body posted to /v1/openclaw/webhook, in source order. -/
def webhookBodyKeys : List String :=
  ["task", "tenant_id", "persona_name", "source", "initiator"]

/-- From src/e2e_test.sh, Test 8: the status value the webhook response must
carry for the test to pass. -/
def webhookExpectedStatus : String := "QUEUED"

/-- Modelled from the spec, with the field names the repository's callers
use: a task submission request body. -/
structure SubmitRequest where
  task : String
  tenant_id : String
  persona_name : String
  session_id : Option String
  source : String
deriving DecidableEq, Repr

/-- Modelled from the spec: a persisted Task record — id, parent pointer
(none for a root), agent, creation time, status and output. -/
structure TaskRec where
  task_id : Nat
  parent_task_id : Option Nat
  agent_name : String
  created_at : Nat
  status : TaskStatus
  output : Option String
deriving DecidableEq, Repr

/-- Modelled from the spec: the state behind the submit endpoint — the next
fresh task id and the task store. -/
structure OrchState where
  nextId : Nat
  tasks : List TaskRec
deriving DecidableEq, Repr

/-- Modelled from the spec: the submit operation (the FastAPI handler is not
in the repository's files): it stores a fresh root task with initial status
QUEUED and returns the new task id together with that status. -/
def submitTask (st : OrchState) (req : SubmitRequest) (now : Nat) :
    OrchState × Nat × TaskStatus :=
  let t : TaskRec :=
    { task_id := st.nextId, parent_task_id := none,
      agent_name := req.persona_name, created_at := now,
      status := .QUEUED, output := none }
  (⟨st.nextId + 1, st.tasks ++ [t]⟩, st.nextId, .QUEUED)

/-- Modelled from the spec: the ordering the TaskTree gives its children —
insertion by creation time, keeping earlier-created tasks first. -/
def insertByCreated (t : TaskRec) : List TaskRec → List TaskRec
| [] => [t]
| h :: rest =>
  if t.created_at < h.created_at then t :: h :: rest
  else h :: insertByCreated t rest

/-- Modelled from the spec: sort a list of task records by creation time. -/
def sortByCreated (l : List TaskRec) : List TaskRec :=
  l.foldr insertByCreated []

/-- Modelled from the spec: the children of a task — the records whose
parent pointer names it, ordered by creation order. -/
def childrenOf (store : List TaskRec) (pid : Nat) : List TaskRec :=
  sortByCreated (store.filter (fun t => t.parent_task_id == some pid))

/-- Modelled from the spec: a TaskTree — a Task plus an ordered list of
child TaskTrees (the dashboard's TaskTreeNode renders exactly this shape:
a node and its node.sub_tasks). -/
inductive TaskTree where
| node (task : TaskRec) (sub_tasks : List TaskTree)
deriving Repr

/-- Modelled from the spec: rebuild the tree below one record from the
parent/child links, with a recursion budget (tree reconstruction is a query
over an arena keyed by task_id). -/
def buildTreeAux (store : List TaskRec) : Nat → TaskRec → TaskTree
| 0, t => .node t []
| fuel + 1, t =>
  .node t ((childrenOf store t.task_id).map (buildTreeAux store fuel))

/-- Modelled from the spec: rebuild the TaskTree of a root id on demand
from the store's parent/child links. -/
def buildTree (store : List TaskRec) (rootId : Nat) : Option TaskTree :=
  (store.find? (fun t => t.task_id == rootId)).map
    (buildTreeAux store store.length)

/-- Modelled from the spec: how completing the task named `id` rewrites one
record — status and output change, identity, parent and creation time do
not. -/
def completeUpd (id : Nat) (s : TaskStatus) (out : String) (t : TaskRec) :
    TaskRec :=
  if t.task_id = id then { t with status := s, output := some out } else t

/-- Modelled from the spec: record in the store that the task named `id`
finished with status `s` and output `out`. -/
def completeTask (store : List TaskRec) (id : Nat) (s : TaskStatus)
    (out : String) : List TaskRec :=
  store.map (completeUpd id s out)

mutual

/-- Apply a record transformation at every node of a TaskTree. -/
def mapTree (f : TaskRec → TaskRec) : TaskTree → TaskTree
| .node t cs => .node (f t) (mapTreeList f cs)

/-- Apply a record transformation at every node of a list of TaskTrees. -/
def mapTreeList (f : TaskRec → TaskRec) : List TaskTree → List TaskTree
| [] => []
| c :: cs => mapTree f c :: mapTreeList f cs

end

/-- Modelled from the spec: the Orchestrator's aggregation of the child
statuses of a decomposed root task into the root's terminal status (the
orchestrator is not in the repository's files): any FAILURE child makes the
root PARTIAL_SUCCESS when some child succeeded and FAILURE when none did;
with no failed child the root is SUCCESS. -/
def aggregateStatus (children : List TaskStatus) : TaskStatus :=
  if children.any (fun c => c == .FAILURE) then
    if children.any (fun c => c == .SUCCESS) then .PARTIAL_SUCCESS
    else .FAILURE
  else .SUCCESS

/-- Modelled from the spec: the Communication Bus state — the registered
agents, one inbox per agent name, and the global audit log of published
messages. -/
structure BusState where
  agents : List String
  inbox : String → List Message
  audit : List Message

/-- Modelled from the spec: publish appends the message to the receiver's
inbox — to every currently registered agent's inbox for a broadcast — and
to the global audit log. -/
def publish (st : BusState) (m : Message) : BusState :=
  if m.receiver = "*" then
    { st with
      inbox := fun a =>
        if a ∈ st.agents then st.inbox a ++ [m] else st.inbox a,
      audit := st.audit ++ [m] }
  else
    { st with
      inbox := fun a =>
        if a = m.receiver then st.inbox a ++ [m] else st.inbox a,
      audit := st.audit ++ [m] }

/-- Publish a sequence of messages in the given global order (one arbitrary
interleaving of the concurrent publishers). -/
def publishAll (st : BusState) (ms : List Message) : BusState :=
  ms.foldl publish st

/-- Whether publishing `m` delivers it to agent `a`'s inbox, given the
registered agents. -/
def deliversTo (agents : List String) (a : String) (m : Message) : Bool :=
  if m.receiver = "*" then decide (a ∈ agents) else decide (a = m.receiver)

/-- A concrete bus with two registered agents and empty inboxes, used to
exhibit that the cross-receiver delivery order is not observable. -/
def busExample : BusState :=
  ⟨["A", "B"], fun _ => [], []⟩

/-- A concrete direct message to the given receiver. -/
def msgTo (r : String) : Message :=
  ⟨"sender", r, .info, "payload", 0, 0⟩

/-- Modelled from the spec: whether a published message is the result-type
message correlated to `tid`. -/
def isResultFor (tid : Nat) (m : Message) : Bool :=
  m.type == .result && m.task_id == tid

/-- Modelled from the spec: whether a published message answers an
awaitResult(tid, timeout) call started at `t0` — a correlated result
published inside the waiting window. -/
def answersAwait (tid t0 timeout : Nat) (m : Message) : Bool :=
  isResultFor tid m && decide (t0 ≤ m.timestamp) &&
    decide (m.timestamp ≤ t0 + timeout)

/-- Modelled from the spec: awaitResult(task_id, timeout), read over the
audit log of published messages, each carrying its publish time: the call
started at `t0` returns the first correlated result-type message published
in the waiting window together with the time at which the call returns —
the message's publish time on success, the full deadline t0 + timeout on a
timeout. The bus state is handed back untouched: timing out cancels
nothing, and a result published after the deadline stays in the log,
merely unclaimed by this caller. -/
def awaitResult (st : BusState) (tid t0 timeout : Nat) :
    BusState × Nat × Option Message :=
  match st.audit.find? (answersAwait tid t0 timeout) with
  | some m => (st, m.timestamp, some m)
  | none => (st, t0 + timeout, none)

/-- Modelled from the spec: what the Reasoning Gateway returns at one
THINKING step of the Execution Loop. -/
inductive Decision where
| act (tool args : String)
| delegate (target subtask : String)
| final (answer : String)
| failed (err : String)
deriving DecidableEq, Repr

/-- Modelled from the spec: whether a decision keeps the loop going —
ACTING and DELEGATING feed OBSERVING, which returns to THINKING. -/
def Decision.continues : Decision → Bool
| .act _ _ => true
| .delegate _ _ => true
| _ => false

/-- Modelled from the spec: the outcome of one Execution Loop run — the
task's terminal status, the answer, and the 1-based step number of every
THINKING entry, in order. -/
structure LoopResult where
  status : TaskStatus
  answer : String
  thinkingSteps : List Nat
deriving DecidableEq, Repr

/-- Modelled from the spec: the bounded think→act→observe cycle (the worker
is not in the repository's files). At each step the gateway decides: a
final answer ends the loop COMPLETE (task SUCCESS), an unrecoverable
gateway failure ends it FAILED (task FAILURE); otherwise OBSERVING loops
back to THINKING unless the step budget is spent, in which case the loop
force-terminates with the best-effort partial answer and status
PARTIAL_SUCCESS. `fuel` counts the THINKING entries still allowed,
including the current one. -/
def runLoopAux (gateway : Nat → Decision) (best : String) :
    Nat → Nat → List Nat → LoopResult
| _, 0, trace => ⟨.PARTIAL_SUCCESS, best, trace⟩
| step, fuel + 1, trace =>
  match gateway step with
  | .final ans => ⟨.SUCCESS, ans, trace ++ [step]⟩
  | .failed err => ⟨.FAILURE, err, trace ++ [step]⟩
  | _ =>
    if fuel = 0 then ⟨.PARTIAL_SUCCESS, best, trace ++ [step]⟩
    else runLoopAux gateway best (step + 1) fuel (trace ++ [step])

/-- Modelled from the spec: run one agent's Execution Loop on one task with
the given step budget; steps are 1-based. -/
def runLoop (gateway : Nat → Decision) (maxSteps : Nat) : LoopResult :=
  runLoopAux gateway "best-effort partial answer" 1 maxSteps []

/-- From src/unnamed/part_007, pollForResult: one row of the /api/task-logs
response, with the fields the poll inspects. -/
structure TaskLogRec where
  task_id : String
  status : String
deriving DecidableEq, Repr

/-- From src/unnamed/part_007, pollForResult (lines 74-76): the check run on
one fetched /api/task-logs response — find the task's row and return it when
its status is neither QUEUED nor PENDING. -/
def pollCheck (logs : List TaskLogRec) (taskId : String) :
    Option TaskLogRec :=
  match logs.find? (fun l => l.task_id == taskId) with
  | some task =>
    if task.status ≠ "QUEUED" ∧ task.status ≠ "PENDING" then some task
    else none
  | none => none

/-- What poll number `i` yields: the i-th /api/task-logs response put
through pollCheck; a failed fetch (none — the source catches and ignores
the exception) yields nothing. -/
def pollAttempt (polls : Nat → Option (List TaskLogRec)) (taskId : String)
    (i : Nat) : Option TaskLogRec :=
  match polls i with
  | some logs => pollCheck logs taskId
  | none => none

/-- From src/unnamed/part_007, pollForResult (lines 70-80): the polling
loop — `rem` polls remain, the next poll is number `i`; it returns the
first hit and null (none) when every remaining poll misses. -/
def pollLoop (polls : Nat → Option (List TaskLogRec)) (taskId : String) :
    Nat → Nat → Option TaskLogRec
| _, 0 => none
| i, rem + 1 =>
  match pollAttempt polls taskId i with
  | some t => some t
  | none => pollLoop polls taskId (i + 1) rem

/-- From src/unnamed/part_007, pollForResult: poll /api/task-logs at most
15 times for the task's row. -/
def pollForResult (polls : Nat → Option (List TaskLogRec))
    (taskId : String) : Option TaskLogRec :=
  pollLoop polls taskId 0 15

/-- A concrete submit-endpoint state: one stored task with id 0, next fresh
id 1. -/
def submitStateExample : OrchState :=
  ⟨1, [⟨0, none, "Generic", 0, .SUCCESS, none⟩]⟩

/-- A concrete submit request of the shape the dashboard posts. -/
def submitRequestExample : SubmitRequest :=
  ⟨"Generate a one-line greeting", "acme_corp", "Auto", none, "dashboard"⟩

/-- A concrete store: one root task, two children created in order — the
order completion events arrived in when the first child finished first. -/
def treeStoreA : List TaskRec :=
  [⟨0, none, "Orchestrator", 0, .IN_PROGRESS, none⟩,
   ⟨1, some 0, "Finance Agent", 1, .SUCCESS, none⟩,
   ⟨2, some 0, "Compliance Officer", 2, .FAILURE, none⟩]

/-- The same records as treeStoreA with the two children in the other
order — the order they arrive in when the second child finishes first. -/
def treeStoreB : List TaskRec :=
  [⟨0, none, "Orchestrator", 0, .IN_PROGRESS, none⟩,
   ⟨2, some 0, "Compliance Officer", 2, .FAILURE, none⟩,
   ⟨1, some 0, "Finance Agent", 1, .SUCCESS, none⟩]

/- ════════════════════════ THEOREMS ════════════════════════ -/

/-- C1: along any status trace that follows the worker's transition
relation, the lifecycle rank strictly increases — the trace is monotonic
through QUEUED, PENDING, IN_PROGRESS and then a terminal value — the only
terminal values are SUCCESS, FAILURE and PARTIAL_SUCCESS, and a terminal
status has no outgoing transition, so once held it never changes. -/
theorem status_monotonic (l : List TaskStatus)
    (hchain : List.Chain' (fun a b => statusStep a b = true) l) :
    l.Pairwise (fun a b => statusRank a < statusRank b) ∧
    ∀ a : TaskStatus, a.isTerminal = true →
      (a = .SUCCESS ∨ a = .FAILURE ∨ a = .PARTIAL_SUCCESS) ∧
      ∀ b, statusStep a b = false := by
  refine ⟨?_, by decide⟩
  have h2 : List.Chain' (fun a b => statusRank a < statusRank b) l :=
    hchain.imp (by decide)
  haveI : IsTrans TaskStatus (fun a b => statusRank a < statusRank b) :=
    ⟨fun _ _ _ hab hbc => Nat.lt_trans hab hbc⟩
  exact List.chain'_iff_pairwise.mp h2

/-- C1 witness: the nominal lifecycle QUEUED, PENDING, IN_PROGRESS, SUCCESS
is a transition chain and the theorem applies to it. -/
theorem status_monotonic_witness :
    ([TaskStatus.QUEUED, .PENDING, .IN_PROGRESS, .SUCCESS].Pairwise
        (fun a b => statusRank a < statusRank b)) ∧
    ∀ a : TaskStatus, a.isTerminal = true →
      (a = .SUCCESS ∨ a = .FAILURE ∨ a = .PARTIAL_SUCCESS) ∧
      ∀ b, statusStep a b = false :=
  status_monotonic [.QUEUED, .PENDING, .IN_PROGRESS, .SUCCESS]
    (by simp only [List.chain'_cons, List.chain'_singleton]; decide)

/-- C6 counterexample: the public interface does not use the claimed
six-value vocabulary as written — the e2e test requires a completed task's
status to read the lowercase "success", which is not among the claimed
values; the dashboards enumerate the lowercase "partial_success" and
"in_progress"; and no dashboard map knows the claimed uppercase
IN_PROGRESS or PARTIAL_SUCCESS. -/
theorem status_vocabulary_cex :
    e2eSuccessStatus ∉ specClaimedStatusValues ∧
    "partial_success" ∈ statusChipKeys ∧
    "partial_success" ∉ specClaimedStatusValues ∧
    "in_progress" ∈ statusColorsKeys ∧
    "in_progress" ∉ specClaimedStatusValues ∧
    "IN_PROGRESS" ∉ statusChipKeys ∧
    "PARTIAL_SUCCESS" ∉ statusChipKeys := by decide

/-- C6 amended: the status vocabulary the public interface exposes is
QUEUED, PENDING, in_progress, success, failure, partial_success —
queue-side values upper case, worker-written values lower case. The
serialization covers exactly these six, the e2e test's observed statuses
lie in the set, every exposed value is styled by the AgentComm status
chip, and the dashboard maps enumerate nothing beyond these values and
the two uppercase aliases SUCCESS and FAILURE. -/
theorem status_vocabulary :
    exposedStatusValues =
      ["QUEUED", "PENDING", "in_progress", "success", "failure",
       "partial_success"] ∧
    e2eSuccessStatus ∈ exposedStatusValues ∧
    (∀ s ∈ e2ePendingStatuses, s ∈ exposedStatusValues) ∧
    (∀ s ∈ exposedStatusValues, s ∈ statusChipKeys) ∧
    (∀ s ∈ statusChipKeys,
      s ∈ exposedStatusValues ∨ s ∈ ["SUCCESS", "FAILURE"]) ∧
    (∀ s ∈ statusColorsKeys,
      s ∈ exposedStatusValues ∨ s ∈ ["SUCCESS", "FAILURE"]) := by decide

/-- C9 counterexample: the dashboard's message-type maps enumerate the type
info — absent from the claimed vocabulary — and know nothing of the claimed
type direct, which falls through to the default color and icon. -/
theorem message_types_cex :
    "info" ∈ msgTypeColorMap.map Prod.fst ∧
    "info" ∉ specClaimedMsgTypes ∧
    "direct" ∉ msgTypeColorMap.map Prod.fst ∧
    "direct" ∉ msgTypeIconMap.map Prod.fst ∧
    msgTypeColor "direct" = "#6c7293" ∧
    msgTypeIcon "direct" = "💬" ∧
    msgTypeColor "info" = "#4a90e2" := by decide

/-- C9 amended: the message type vocabulary is info, delegate, result,
broadcast, query, error — info in place of the spec's direct. Both
dashboard maps enumerate exactly the wire names of these six types, every
type has a dedicated color and icon distinct from the defaults, and a bus
Message carries such a type together with sender, receiver, content,
task_id and timestamp. -/
theorem message_types :
    msgTypeColorMap.map Prod.fst = allMsgTypes.map MsgType.asString ∧
    msgTypeIconMap.map Prod.fst = allMsgTypes.map MsgType.asString ∧
    (∀ t : MsgType,
      msgTypeColor t.asString ≠ "#6c7293" ∧
      msgTypeIcon t.asString ≠ "💬") ∧
    (∀ m : Message, m.type ∈ allMsgTypes) := by
  refine ⟨by decide, by decide, by decide, fun m => ?_⟩
  have h : ∀ t : MsgType, t ∈ allMsgTypes := by decide
  exact h m.type

/-- C3 counterexample: the submit requests the repository's callers send
carry the agent under the key persona_name — none sends an agent_name
key — and the automatic route is requested with the capitalized literal
Auto, not auto. -/
theorem submit_shape_cex :
    "agent_name" ∉ handleTaskSubmitKeys ∧
    "persona_name" ∈ handleTaskSubmitKeys ∧
    "agent_name" ∉ webhookBodyKeys ∧
    "persona_name" ∈ webhookBodyKeys ∧
    sidebarAgentName none = "Auto" ∧
    sidebarAgentName none ≠ "auto" := by decide

/-- C3 amended: a submitted root task — input of the shape the dashboard
and webhook callers post, task with tenant_id, persona_name or "Auto",
optional session_id and source — is stored under a fresh task_id, and the
submit operation returns that id with initial status QUEUED, whose wire
form is exactly the value the e2e webhook test requires. -/
theorem submit_queued (st : OrchState) (req : SubmitRequest) (now : Nat)
    (hfresh : ∀ t ∈ st.tasks, t.task_id < st.nextId) :
    (submitTask st req now).2.2 = .QUEUED ∧
    statusString (submitTask st req now).2.2 = webhookExpectedStatus ∧
    (∀ t ∈ st.tasks, t.task_id ≠ (submitTask st req now).2.1) ∧
    (submitTask st req now).2.1 ∈
      (submitTask st req now).1.tasks.map TaskRec.task_id := by
  refine ⟨rfl, rfl, fun t ht => Nat.ne_of_lt (hfresh t ht), ?_⟩
  simp [submitTask]

/-- C3 witness: submitting the example request to a store holding one task
with id 0 yields status QUEUED, its wire value, and the fresh id 1. -/
theorem submit_queued_witness :
    (submitTask submitStateExample submitRequestExample 5).2.2 = .QUEUED ∧
    statusString (submitTask submitStateExample submitRequestExample 5).2.2 =
      webhookExpectedStatus ∧
    (∀ t ∈ submitStateExample.tasks,
      t.task_id ≠ (submitTask submitStateExample submitRequestExample 5).2.1) ∧
    (submitTask submitStateExample submitRequestExample 5).2.1 ∈
      (submitTask submitStateExample submitRequestExample 5).1.tasks.map
        TaskRec.task_id :=
  submit_queued submitStateExample submitRequestExample 5 (by decide)

/-- C5: for a decomposed root task all of whose children hold terminal
statuses, if at least one child finished FAILURE then the aggregated root
status is PARTIAL_SUCCESS when at least one child finished SUCCESS, and
FAILURE when none did. -/
theorem aggregate_failure (cs : List TaskStatus)
    (_hterm : ∀ c ∈ cs, c.isTerminal = true)
    (hfail : TaskStatus.FAILURE ∈ cs) :
    (TaskStatus.SUCCESS ∈ cs → aggregateStatus cs = .PARTIAL_SUCCESS) ∧
    (TaskStatus.SUCCESS ∉ cs → aggregateStatus cs = .FAILURE) := by
  have hf : cs.any (fun c => c == TaskStatus.FAILURE) = true :=
    List.any_eq_true.mpr ⟨_, hfail, by decide⟩
  refine ⟨fun hs => ?_, fun hs => ?_⟩
  · have hsucc : cs.any (fun c => c == TaskStatus.SUCCESS) = true :=
      List.any_eq_true.mpr ⟨_, hs, by decide⟩
    simp [aggregateStatus, hf, hsucc]
  · have hsucc : ¬ cs.any (fun c => c == TaskStatus.SUCCESS) = true := by
      intro h
      obtain ⟨x, hx, hxe⟩ := List.any_eq_true.mp h
      exact hs (eq_of_beq hxe ▸ hx)
    simp [aggregateStatus, hf, hsucc]

/-- C5 witness: the spec's three-step scenario — two children SUCCESS, one
FAILURE — aggregates to PARTIAL_SUCCESS (and would aggregate to FAILURE
had no child succeeded). -/
theorem aggregate_failure_witness :
    (TaskStatus.SUCCESS ∈
        [TaskStatus.SUCCESS, .FAILURE, .SUCCESS] →
      aggregateStatus [TaskStatus.SUCCESS, .FAILURE, .SUCCESS] =
        .PARTIAL_SUCCESS) ∧
    (TaskStatus.SUCCESS ∉
        [TaskStatus.SUCCESS, .FAILURE, .SUCCESS] →
      aggregateStatus [TaskStatus.SUCCESS, .FAILURE, .SUCCESS] =
        .FAILURE) :=
  aggregate_failure [.SUCCESS, .FAILURE, .SUCCESS] (by decide) (by decide)

/-- Each Execution Loop run reaches a terminal status and its THINKING
entries are the consecutive steps from the starting step, at most `fuel`
of them. -/
theorem runLoopAux_spec (g : Nat → Decision) (best : String) :
    ∀ fuel step trace,
      ∃ k, k ≤ fuel ∧
        (runLoopAux g best step fuel trace).thinkingSteps =
          trace ++ List.range' step k ∧
        (runLoopAux g best step fuel trace).status.isTerminal = true := by
  intro fuel
  induction fuel with
  | zero =>
    intro step trace
    exact ⟨0, Nat.le_refl 0, by simp [runLoopAux], rfl⟩
  | succ n ih =>
    intro step trace
    cases hg : g step with
    | final ans =>
      exact ⟨1, by omega, by simp [runLoopAux, hg, List.range'_one], by
        simp [runLoopAux, hg]; rfl⟩
    | failed err =>
      exact ⟨1, by omega, by simp [runLoopAux, hg, List.range'_one], by
        simp [runLoopAux, hg]; rfl⟩
    | act tool args =>
      by_cases hn : n = 0
      · subst hn
        exact ⟨1, by omega, by simp [runLoopAux, hg, List.range'_one], by
          simp [runLoopAux, hg]; rfl⟩
      · obtain ⟨k, hk, hsteps, hterm⟩ := ih (step + 1) (trace ++ [step])
        refine ⟨k + 1, by omega, ?_, ?_⟩
        · simp only [runLoopAux, hg, if_neg hn]
          rw [hsteps, List.range'_succ, List.append_assoc]
          rfl
        · simpa only [runLoopAux, hg, if_neg hn] using hterm
    | delegate target subtask =>
      by_cases hn : n = 0
      · subst hn
        exact ⟨1, by omega, by simp [runLoopAux, hg, List.range'_one], by
          simp [runLoopAux, hg]; rfl⟩
      · obtain ⟨k, hk, hsteps, hterm⟩ := ih (step + 1) (trace ++ [step])
        refine ⟨k + 1, by omega, ?_, ?_⟩
        · simp only [runLoopAux, hg, if_neg hn]
          rw [hsteps, List.range'_succ, List.append_assoc]
          rfl
        · simpa only [runLoopAux, hg, if_neg hn] using hterm

/-- When the gateway keeps the loop going forever — every decision acts or
delegates, never final, never failed — the loop spends its whole budget and
force-terminates with the best-effort answer and PARTIAL_SUCCESS. -/
theorem runLoopAux_exhausts (g : Nat → Decision) (best : String)
    (hg : ∀ j, (g j).continues = true) :
    ∀ fuel step trace,
      runLoopAux g best step fuel trace =
        ⟨.PARTIAL_SUCCESS, best, trace ++ List.range' step fuel⟩ := by
  intro fuel
  induction fuel with
  | zero => intro step trace; simp [runLoopAux]
  | succ n ih =>
    intro step trace
    have hc := hg step
    cases hgs : g step with
    | final ans => rw [hgs] at hc; simp [Decision.continues] at hc
    | failed err => rw [hgs] at hc; simp [Decision.continues] at hc
    | act tool args =>
      by_cases hn : n = 0
      · subst hn; simp [runLoopAux, hgs, List.range'_one]
      · rw [show runLoopAux g best step (n + 1) trace =
              runLoopAux g best (step + 1) n (trace ++ [step]) by
            simp [runLoopAux, hgs, if_neg hn],
          ih (step + 1) (trace ++ [step]), List.range'_succ]
        simp
    | delegate target subtask =>
      by_cases hn : n = 0
      · subst hn; simp [runLoopAux, hgs, List.range'_one]
      · rw [show runLoopAux g best step (n + 1) trace =
              runLoopAux g best (step + 1) n (trace ++ [step]) by
            simp [runLoopAux, hgs, if_neg hn],
          ih (step + 1) (trace ++ [step]), List.range'_succ]
        simp

/-- C2: an Execution Loop run on one (task, agent) enters THINKING at the
consecutive 1-based steps 1..k for some k that never exceeds the step
budget — the step counter strictly increases by 1 per THINKING entry —
the run always ends in a terminal status (never an unhandled error), and
when the gateway never concludes, so the budget is spent, the loop
terminates with the best-effort partial answer and status
PARTIAL_SUCCESS. -/
theorem execution_loop_bounded (g : Nat → Decision) (maxSteps : Nat) :
    ∃ k, k ≤ maxSteps ∧
      (runLoop g maxSteps).thinkingSteps = List.range' 1 k ∧
      (runLoop g maxSteps).status.isTerminal = true ∧
      ((∀ j, (g j).continues = true) →
        runLoop g maxSteps =
          ⟨.PARTIAL_SUCCESS, "best-effort partial answer",
            List.range' 1 maxSteps⟩) := by
  obtain ⟨k, hk, hsteps, hterm⟩ := runLoopAux_spec g _ maxSteps 1 []
  refine ⟨k, hk, ?_, hterm, fun hg => ?_⟩
  · simpa [runLoop] using hsteps
  · simpa [runLoop] using runLoopAux_exhausts g _ hg maxSteps 1 []

/-- The row check of one /api/task-logs poll only succeeds with a row whose
status is neither QUEUED nor PENDING. -/
theorem pollCheck_some (logs : List TaskLogRec) (tid : String)
    (t : TaskLogRec) (h : pollCheck logs tid = some t) :
    t.status ≠ "QUEUED" ∧ t.status ≠ "PENDING" := by
  unfold pollCheck at h
  split at h
  · split at h
    · rename_i hc
      cases h
      exact hc
    · exact absurd h (by simp)
  · exact absurd h (by simp)

/-- A successful poll attempt yields a row whose status is neither QUEUED
nor PENDING. -/
theorem pollAttempt_some (polls : Nat → Option (List TaskLogRec))
    (tid : String) (i : Nat) (t : TaskLogRec)
    (h : pollAttempt polls tid i = some t) :
    t.status ≠ "QUEUED" ∧ t.status ≠ "PENDING" := by
  unfold pollAttempt at h
  cases hp : polls i with
  | none => rw [hp] at h; exact absurd h (by simp)
  | some logs => rw [hp] at h; exact pollCheck_some logs tid t h

/-- When every remaining poll attempt misses, the polling loop returns
none. -/
theorem pollLoop_none (polls : Nat → Option (List TaskLogRec))
    (tid : String) :
    ∀ rem i, (∀ j, i ≤ j → j < i + rem → pollAttempt polls tid j = none) →
      pollLoop polls tid i rem = none := by
  intro rem
  induction rem with
  | zero => intro i _; rfl
  | succ n ih =>
    intro i h
    have h0 : pollAttempt polls tid i = none := h i (Nat.le_refl i) (by omega)
    simp only [pollLoop, h0]
    exact ih (i + 1) fun j hj1 hj2 => h j (by omega) (by omega)

/-- A row the polling loop returns was produced by one of the remaining
poll attempts and has left the waiting statuses. -/
theorem pollLoop_some (polls : Nat → Option (List TaskLogRec))
    (tid : String) :
    ∀ rem i t, pollLoop polls tid i rem = some t →
      (t.status ≠ "QUEUED" ∧ t.status ≠ "PENDING") ∧
      ∃ j, i ≤ j ∧ j < i + rem ∧ pollAttempt polls tid j = some t := by
  intro rem
  induction rem with
  | zero => intro i t h; exact absurd h (by simp [pollLoop])
  | succ n ih =>
    intro i t h
    rw [show pollLoop polls tid i (n + 1) =
          match pollAttempt polls tid i with
          | some t => some t
          | none => pollLoop polls tid (i + 1) n from rfl] at h
    cases ha : pollAttempt polls tid i with
    | some t' =>
      rw [ha] at h
      cases h
      exact ⟨pollAttempt_some polls tid i t ha,
        ⟨i, Nat.le_refl i, by omega, ha⟩⟩
    | none =>
      rw [ha] at h
      obtain ⟨hstat, j, hj1, hj2, hj3⟩ := ih (i + 1) t h
      exact ⟨hstat, ⟨j, by omega, by omega, hj3⟩⟩

/-- The polling loop returns the first hit among the remaining attempts. -/
theorem pollLoop_first (polls : Nat → Option (List TaskLogRec))
    (tid : String) :
    ∀ rem i i0 t, i ≤ i0 → i0 < i + rem →
      pollAttempt polls tid i0 = some t →
      (∀ j, i ≤ j → j < i0 → pollAttempt polls tid j = none) →
      pollLoop polls tid i rem = some t := by
  intro rem
  induction rem with
  | zero => intro i i0 t h1 h2 _ _; omega
  | succ n ih =>
    intro i i0 t h1 h2 hhit hbefore
    by_cases hi : i = i0
    · subst hi; simp only [pollLoop, hhit]
    · have h0 : pollAttempt polls tid i = none :=
        hbefore i (Nat.le_refl i) (by omega)
      simp only [pollLoop, h0]
      exact ih (i + 1) i0 t (by omega) (by omega) hhit
        fun j hj1 hj2 => hbefore j (by omega) hj2

/-- The polling loop reads nothing beyond the remaining poll numbers. -/
theorem pollLoop_congr (polls polls' : Nat → Option (List TaskLogRec))
    (tid : String) :
    ∀ rem i, (∀ j, i ≤ j → j < i + rem → polls j = polls' j) →
      pollLoop polls tid i rem = pollLoop polls' tid i rem := by
  intro rem
  induction rem with
  | zero => intro i _; rfl
  | succ n ih =>
    intro i h
    have ha : pollAttempt polls tid i = pollAttempt polls' tid i := by
      unfold pollAttempt
      rw [h i (Nat.le_refl i) (by omega)]
    simp only [pollLoop, ha]
    cases pollAttempt polls' tid i with
    | some t => rfl
    | none => exact ih (i + 1) fun j hj1 hj2 => h j (by omega) (by omega)

/-- C10: the dashboard's pollForResult(taskId) is bounded — its outcome is
a function of the first 15 /api/task-logs responses alone, so it performs
at most 15 polls; it returns none when the task's row never leaves QUEUED
or PENDING within those polls; any row it returns has left those states
and came from one of the 15 polls; and it returns the first such row as
soon as a poll produces one. -/
theorem pollForResult_bounded
    (polls polls' : Nat → Option (List TaskLogRec)) (tid : String) :
    ((∀ j, j < 15 → polls j = polls' j) →
      pollForResult polls tid = pollForResult polls' tid) ∧
    ((∀ j, j < 15 → pollAttempt polls tid j = none) →
      pollForResult polls tid = none) ∧
    (∀ t, pollForResult polls tid = some t →
      (t.status ≠ "QUEUED" ∧ t.status ≠ "PENDING") ∧
      ∃ j, j < 15 ∧ pollAttempt polls tid j = some t) ∧
    (∀ i0 t, i0 < 15 → pollAttempt polls tid i0 = some t →
      (∀ j, j < i0 → pollAttempt polls tid j = none) →
      pollForResult polls tid = some t) := by
  refine ⟨fun h => pollLoop_congr polls polls' tid 15 0
      (fun j _ hj2 => h j (by omega)),
    fun h => pollLoop_none polls tid 15 0 (fun j _ hj2 => h j (by omega)),
    fun t ht => ?_,
    fun i0 t hi0 hhit hbefore => pollLoop_first polls tid 15 0 i0 t
      (by omega) (by omega) hhit (fun j _ hj2 => hbefore j hj2)⟩
  obtain ⟨hstat, j, _, hj2, hj3⟩ := pollLoop_some polls tid 15 0 t ht
  exact ⟨hstat, ⟨j, by omega, hj3⟩⟩

/-- Publishing never changes the set of registered agents. -/
theorem publish_agents (st : BusState) (m : Message) :
    (publish st m).agents = st.agents := by
  unfold publish
  split <;> rfl

/-- One publish appends the message to exactly the inboxes it delivers
to. -/
theorem publish_inbox (st : BusState) (m : Message) (a : String) :
    (publish st m).inbox a =
      st.inbox a ++ if deliversTo st.agents a m then [m] else [] := by
  unfold publish deliversTo
  by_cases hb : m.receiver = "*"
  · rw [if_pos hb]
    by_cases ha : a ∈ st.agents
    · simp [ha, hb]
    · simp [ha, hb]
  · rw [if_neg hb]
    by_cases ha : a = m.receiver
    · simp [ha, hb]
    · simp [ha, hb]

/-- Publishing a sequence never changes the set of registered agents. -/
theorem publishAll_agents (ms : List Message) (st : BusState) :
    (publishAll st ms).agents = st.agents := by
  induction ms generalizing st with
  | nil => rfl
  | cons m ms ih =>
    show (publishAll (publish st m) ms).agents = st.agents
    rw [ih (publish st m), publish_agents]

/-- After publishing a sequence of messages, an agent's inbox holds
exactly the messages delivered to it, in publication order. -/
theorem publishAll_inbox (ms : List Message) (st : BusState) (a : String) :
    (publishAll st ms).inbox a =
      st.inbox a ++ ms.filter (deliversTo st.agents a) := by
  induction ms generalizing st with
  | nil => simp [publishAll]
  | cons m ms ih =>
    show (publishAll (publish st m) ms).inbox a = _
    rw [ih (publish st m), publish_agents, publish_inbox]
    cases hd : deliversTo st.agents a m
    · simp [List.filter_cons, hd]
    · simp [List.filter_cons, hd]

/-- C8: for every receiver, the inbox after any global publish order is
exactly the published messages addressed to it — directly or by broadcast
while registered — in publication order (FIFO within one receiver, whatever
interleaving the concurrent publishers produced); and across receivers the
order is not observable: two different global publish orders of the same
messages can leave every receiver's inbox identical. -/
theorem bus_fifo (st : BusState) (ms : List Message) (a : String) :
    (publishAll st ms).inbox a =
      st.inbox a ++ ms.filter (deliversTo st.agents a) ∧
    (∃ ms1 ms2 : List Message, ms1 ≠ ms2 ∧ ms1.Perm ms2 ∧
      ∀ r, (publishAll busExample ms1).inbox r =
        (publishAll busExample ms2).inbox r) := by
  refine ⟨publishAll_inbox ms st a,
    ⟨[msgTo "A", msgTo "B"], [msgTo "B", msgTo "A"], by decide,
      List.Perm.swap (msgTo "B") (msgTo "A") [], fun r => ?_⟩⟩
  rw [publishAll_inbox, publishAll_inbox]
  show ([] : List Message) ++ _ = ([] : List Message) ++ _
  by_cases h1 : r = "A"
  · subst h1
    rfl
  · by_cases h2 : r = "B"
    · subst h2
      rfl
    · simp [List.filter_cons, deliversTo, msgTo, busExample, h1, h2]

/-- On a hit, awaitResult returns the found message, its publish time and
the untouched bus. -/
theorem awaitResult_eq_some (st : BusState) (tid t0 T : Nat) (m : Message)
    (hf : st.audit.find? (answersAwait tid t0 T) = some m) :
    awaitResult st tid t0 T = (st, m.timestamp, some m) := by
  unfold awaitResult
  rw [hf]

/-- On a miss, awaitResult returns the timeout at the full deadline and the
untouched bus. -/
theorem awaitResult_eq_none (st : BusState) (tid t0 T : Nat)
    (hf : st.audit.find? (answersAwait tid t0 T) = none) :
    awaitResult st tid t0 T = (st, t0 + T, none) := by
  unfold awaitResult
  rw [hf]

/-- C4: awaitResult(task_id, timeout) started at time t0 always returns by
the deadline t0 + timeout; it yields a correlated result-type message
whenever one was published inside the waiting window, and a timeout — at
exactly the deadline — when every correlated result misses the window. The
bus state comes back unchanged either way: a timeout cancels nothing, and
a result published only after the deadline stays in the audit log for any
other listener, merely unclaimed by this call. -/
theorem awaitResult_spec (st : BusState) (tid t0 T : Nat) :
    (awaitResult st tid t0 T).1 = st ∧
    (awaitResult st tid t0 T).2.1 ≤ t0 + T ∧
    ((∃ m ∈ st.audit, answersAwait tid t0 T m = true) →
      ∃ m, (awaitResult st tid t0 T).2.2 = some m ∧ m ∈ st.audit ∧
        isResultFor tid m = true ∧ t0 ≤ m.timestamp ∧
        m.timestamp ≤ t0 + T) ∧
    ((∀ m ∈ st.audit, isResultFor tid m = true →
        ¬(t0 ≤ m.timestamp ∧ m.timestamp ≤ t0 + T)) →
      (awaitResult st tid t0 T).2.2 = none ∧
      (awaitResult st tid t0 T).2.1 = t0 + T ∧
      ∀ m ∈ st.audit, m ∈ (awaitResult st tid t0 T).1.audit) := by
  cases hf : st.audit.find? (answersAwait tid t0 T) with
  | some m =>
    rw [awaitResult_eq_some st tid t0 T m hf]
    have hp := List.find?_some hf
    have hmem := List.mem_of_find?_eq_some hf
    have hp' : isResultFor tid m = true ∧ t0 ≤ m.timestamp ∧
        m.timestamp ≤ t0 + T := by
      simpa [answersAwait, Bool.and_eq_true, decide_eq_true_eq,
        and_assoc] using hp
    refine ⟨rfl, hp'.2.2, fun _ => ⟨m, rfl, hmem, hp'⟩, fun hnone => ?_⟩
    exact absurd ⟨hp'.2.1, hp'.2.2⟩ (hnone m hmem hp'.1)
  | none =>
    rw [awaitResult_eq_none st tid t0 T hf]
    have hnone := List.find?_eq_none.mp hf
    refine ⟨rfl, Nat.le_refl _, fun hex => ?_, fun _ => ⟨rfl, rfl,
      fun m hm => hm⟩⟩
    obtain ⟨m, hm, hpm⟩ := hex
    exact absurd hpm (hnone m hm)

/-- Insertion by creation time permutes its input. -/
theorem insertByCreated_perm (t : TaskRec) (l : List TaskRec) :
    (insertByCreated t l).Perm (t :: l) := by
  induction l with
  | nil => exact List.Perm.refl _
  | cons h rest ih =>
    unfold insertByCreated
    by_cases hc : t.created_at < h.created_at
    · rw [if_pos hc]
    · rw [if_neg hc]
      exact (ih.cons h).trans (List.Perm.swap t h rest)

/-- Sorting by creation time permutes its input. -/
theorem sortByCreated_perm (l : List TaskRec) :
    (sortByCreated l).Perm l := by
  induction l with
  | nil => exact List.Perm.refl _
  | cons h rest ih =>
    exact (insertByCreated_perm h (sortByCreated rest)).trans (ih.cons h)

/-- Inserting into a list sorted by creation time keeps it sorted. -/
theorem insertByCreated_pairwise (t : TaskRec) (l : List TaskRec)
    (h : l.Pairwise (fun a b => a.created_at ≤ b.created_at)) :
    (insertByCreated t l).Pairwise
      (fun a b => a.created_at ≤ b.created_at) := by
  induction l with
  | nil => simp [insertByCreated]
  | cons hd rest ih =>
    rcases List.pairwise_cons.mp h with ⟨hhd, hrest⟩
    unfold insertByCreated
    by_cases hc : t.created_at < hd.created_at
    · rw [if_pos hc]
      refine List.pairwise_cons.mpr ⟨?_, h⟩
      intro x hx
      rcases List.mem_cons.mp hx with rfl | hx
      · exact Nat.le_of_lt hc
      · exact Nat.le_trans (Nat.le_of_lt hc) (hhd x hx)
    · rw [if_neg hc]
      refine List.pairwise_cons.mpr ⟨?_, ih hrest⟩
      intro x hx
      rcases List.mem_cons.mp
          ((insertByCreated_perm t rest).mem_iff.mp hx) with rfl | hx
      · exact Nat.le_of_not_lt hc
      · exact hhd x hx

/-- The sort by creation time produces a list sorted by creation time. -/
theorem sortByCreated_pairwise (l : List TaskRec) :
    (sortByCreated l).Pairwise
      (fun a b => a.created_at ≤ b.created_at) := by
  induction l with
  | nil => simp [sortByCreated]
  | cons h rest ih => exact insertByCreated_pairwise h (sortByCreated rest) ih

/-- Two lists of task records that are permutations of each other with
pairwise distinct creation times sort to the same list: the creation order
determines the sorted result, not the order the records arrived in. -/
theorem sortByCreated_eq_of_perm (l1 l2 : List TaskRec)
    (hp : l1.Perm l2)
    (hd : l1.Pairwise (fun a b => a.created_at ≠ b.created_at)) :
    sortByCreated l1 = sortByCreated l2 := by
  have hsymm : Symmetric
      (fun a b : TaskRec => a.created_at ≠ b.created_at) :=
    fun a b hab => fun he => hab he.symm
  have hperm : (sortByCreated l1).Perm (sortByCreated l2) :=
    (sortByCreated_perm l1).trans (hp.trans (sortByCreated_perm l2).symm)
  have hd1 : (sortByCreated l1).Pairwise
      (fun a b => a.created_at ≠ b.created_at) :=
    ((sortByCreated_perm l1).pairwise_iff @hsymm).mpr hd
  have hd2 : (sortByCreated l2).Pairwise
      (fun a b => a.created_at ≠ b.created_at) :=
    (((sortByCreated_perm l2).trans hp.symm).pairwise_iff @hsymm).mpr hd
  have hs1 : (sortByCreated l1).Pairwise
      (fun a b => a.created_at < b.created_at) :=
    ((sortByCreated_pairwise l1).and hd1).imp
      fun hab => Nat.lt_of_le_of_ne hab.1 hab.2
  have hs2 : (sortByCreated l2).Pairwise
      (fun a b => a.created_at < b.created_at) :=
    ((sortByCreated_pairwise l2).and hd2).imp
      fun hab => Nat.lt_of_le_of_ne hab.1 hab.2
  haveI : IsAntisymm TaskRec (fun a b => a.created_at < b.created_at) :=
    ⟨fun _ _ h1 h2 => absurd h2 (Nat.lt_asymm h1)⟩
  exact List.eq_of_perm_of_sorted hperm hs1 hs2

/-- The children of a task are the same list — same members, same
creation order — whatever order the store's records arrived in. -/
theorem childrenOf_eq_of_perm (s1 s2 : List TaskRec) (pid : Nat)
    (hp : s1.Perm s2)
    (hd : s1.Pairwise (fun a b => a.created_at ≠ b.created_at)) :
    childrenOf s1 pid = childrenOf s2 pid := by
  unfold childrenOf
  exact sortByCreated_eq_of_perm _ _ (hp.filter _) (hd.filter _)

/-- The tree rebuilt below a record depends on the store only through the
children each task has. -/
theorem buildTreeAux_congr (s1 s2 : List TaskRec)
    (h : ∀ pid, childrenOf s1 pid = childrenOf s2 pid) :
    ∀ fuel t, buildTreeAux s1 fuel t = buildTreeAux s2 fuel t := by
  intro fuel
  induction fuel with
  | zero => intro t; rfl
  | succ n ih =>
    intro t
    simp only [buildTreeAux]
    rw [h t.task_id]
    exact congrArg _ (List.map_congr_left fun c _ => ih c)

/-- find? returns the same element over two permuted lists when at most
one element can satisfy the predicate. -/
theorem find?_eq_of_perm_unique (p : TaskRec → Bool)
    (l1 l2 : List TaskRec) (hp : l1.Perm l2)
    (huniq : l1.Pairwise (fun a b => ¬(p a = true ∧ p b = true))) :
    l1.find? p = l2.find? p := by
  have hsymm : Symmetric
      (fun a b : TaskRec => ¬(p a = true ∧ p b = true)) :=
    fun a b h hab => h ⟨hab.2, hab.1⟩
  cases hf1 : l1.find? p with
  | none =>
    cases hf2 : l2.find? p with
    | none => rfl
    | some b =>
      have hb := List.find?_some hf2
      have hbm : b ∈ l1 := hp.symm.subset (List.mem_of_find?_eq_some hf2)
      exact absurd hb (List.find?_eq_none.mp hf1 b hbm)
  | some a =>
    have ha := List.find?_some hf1
    have ham := List.mem_of_find?_eq_some hf1
    cases hf2 : l2.find? p with
    | none =>
      exact absurd ha (List.find?_eq_none.mp hf2 a (hp.subset ham))
    | some b =>
      have hb := List.find?_some hf2
      have hbm : b ∈ l1 := hp.symm.subset (List.mem_of_find?_eq_some hf2)
      by_cases hab : a = b
      · rw [hab]
      · exact absurd ⟨ha, hb⟩ (huniq.forall hsymm ham hbm hab)

/-- Rebuilding a TaskTree does not depend on the order the store's records
arrived in: any permutation of a store with distinct task ids and distinct
creation times rebuilds the identical tree. -/
theorem buildTree_eq_of_perm (s1 s2 : List TaskRec) (r : Nat)
    (hp : s1.Perm s2)
    (hids : s1.Pairwise (fun a b => a.task_id ≠ b.task_id))
    (hcr : s1.Pairwise (fun a b => a.created_at ≠ b.created_at)) :
    buildTree s1 r = buildTree s2 r := by
  unfold buildTree
  have hfind : s1.find? (fun t => t.task_id == r) =
      s2.find? (fun t => t.task_id == r) := by
    refine find?_eq_of_perm_unique _ s1 s2 hp (hids.imp ?_)
    intro a b hne hab
    exact hne ((eq_of_beq hab.1).trans (eq_of_beq hab.2).symm)
  have hlen : buildTreeAux s1 s1.length = buildTreeAux s2 s2.length := by
    rw [hp.length_eq]
    exact funext (buildTreeAux_congr s1 s2
      (fun pid => childrenOf_eq_of_perm s1 s2 pid hp hcr) s2.length)
  rw [hfind, hlen]

/-- Completing a task rewrites a record's status and output only. -/
theorem completeUpd_fields (id : Nat) (s : TaskStatus) (out : String)
    (t : TaskRec) :
    (completeUpd id s out t).task_id = t.task_id ∧
    (completeUpd id s out t).parent_task_id = t.parent_task_id ∧
    (completeUpd id s out t).created_at = t.created_at := by
  unfold completeUpd
  split <;> exact ⟨rfl, rfl, rfl⟩

/-- Insertion by creation time commutes with a record map that preserves
creation times. -/
theorem insertByCreated_map (u : TaskRec → TaskRec)
    (hcr : ∀ t, (u t).created_at = t.created_at) (t : TaskRec) :
    ∀ l : List TaskRec,
      insertByCreated (u t) (l.map u) = (insertByCreated t l).map u := by
  intro l
  induction l with
  | nil => rfl
  | cons h rest ih =>
    simp only [List.map_cons]
    unfold insertByCreated
    by_cases hc : t.created_at < h.created_at
    · rw [if_pos (by rw [hcr t, hcr h]; exact hc), if_pos hc,
        List.map_cons, List.map_cons]
    · rw [if_neg (by rw [hcr t, hcr h]; exact hc), if_neg hc,
        List.map_cons, ih]

/-- Sorting by creation time commutes with a record map that preserves
creation times. -/
theorem sortByCreated_map (u : TaskRec → TaskRec)
    (hcr : ∀ t, (u t).created_at = t.created_at) :
    ∀ l : List TaskRec, sortByCreated (l.map u) = (sortByCreated l).map u := by
  intro l
  induction l with
  | nil => rfl
  | cons h rest ih =>
    show insertByCreated (u h) ((rest.map u).foldr insertByCreated []) = _
    rw [show (rest.map u).foldr insertByCreated [] =
        sortByCreated (rest.map u) from rfl, ih]
    exact insertByCreated_map u hcr h (sortByCreated rest)

/-- The mutual list worker of mapTree is List.map of mapTree. -/
theorem mapTreeList_eq_map (f : TaskRec → TaskRec) :
    ∀ cs : List TaskTree, mapTreeList f cs = cs.map (mapTree f) := by
  intro cs
  induction cs with
  | nil => rfl
  | cons c cs ih => simp only [mapTreeList, List.map_cons, ih]

/-- Completing a task changes no parent pointers and no creation times, so
each task keeps exactly the same children, each child record merely
rewritten. -/
theorem childrenOf_completeTask (store : List TaskRec) (id : Nat)
    (s : TaskStatus) (out : String) (pid : Nat) :
    childrenOf (completeTask store id s out) pid =
      (childrenOf store pid).map (completeUpd id s out) := by
  unfold childrenOf completeTask
  rw [List.filter_map]
  have hpred : ((fun t : TaskRec => t.parent_task_id == some pid) ∘
      completeUpd id s out) =
      (fun t : TaskRec => t.parent_task_id == some pid) := by
    funext t
    simp only [Function.comp_apply,
      (completeUpd_fields id s out t).2.1]
  rw [hpred]
  exact sortByCreated_map (completeUpd id s out)
    (fun t => (completeUpd_fields id s out t).2.2) _

/-- Rebuilding below a record after a completion update yields the tree
rebuilt before it with every node's record rewritten — identical ids,
nesting and child order. -/
theorem buildTreeAux_completeTask (store : List TaskRec) (id : Nat)
    (s : TaskStatus) (out : String) :
    ∀ fuel t,
      buildTreeAux (completeTask store id s out) fuel
          (completeUpd id s out t) =
        mapTree (completeUpd id s out) (buildTreeAux store fuel t) := by
  intro fuel
  induction fuel with
  | zero => intro t; rfl
  | succ n ih =>
    intro t
    simp only [buildTreeAux, mapTree, mapTreeList_eq_map]
    rw [(completeUpd_fields id s out t).1, childrenOf_completeTask,
      List.map_map, List.map_map]
    exact congrArg _ (List.map_congr_left fun c _ => ih c)

/-- Rebuilding the whole TaskTree after a completion update relabels the
nodes of the tree rebuilt before it, preserving the structure. -/
theorem buildTree_completeTask (store : List TaskRec) (id : Nat)
    (s : TaskStatus) (out : String) (r : Nat) :
    buildTree (completeTask store id s out) r =
      (buildTree store r).map (mapTree (completeUpd id s out)) := by
  unfold buildTree
  show ((store.map (completeUpd id s out)).find? _).map _ = _
  rw [List.find?_map]
  have hpred : ((fun t : TaskRec => t.task_id == r) ∘
      completeUpd id s out) = (fun t : TaskRec => t.task_id == r) := by
    funext t
    simp only [Function.comp_apply, (completeUpd_fields id s out t).1]
  rw [hpred, Option.map_map, Option.map_map]
  have hlen : (completeTask store id s out).length = store.length :=
    List.length_map store _
  refine congrArg (fun f => Option.map f (store.find? _)) (funext fun t => ?_)
  show buildTreeAux (completeTask store id s out)
      (completeTask store id s out).length (completeUpd id s out t) = _
  rw [hlen]
  exact buildTreeAux_completeTask store id s out store.length t

/-- C7: the TaskTree rebuilt from the parent/child links is the same
whatever order the child tasks completed in: permuting the store's records
— with task ids unique and creation times distinct — rebuilds the
identical tree with children ordered by creation, and recording a child's
completion only rewrites node records in place, never the ids, the
nesting or the child order. -/
theorem tasktree_rebuild (s1 s2 : List TaskRec) (r : Nat)
    (hperm : s1.Perm s2)
    (hids : s1.Pairwise (fun a b => a.task_id ≠ b.task_id))
    (hcr : s1.Pairwise (fun a b => a.created_at ≠ b.created_at)) :
    buildTree s1 r = buildTree s2 r ∧
    ∀ id s out, buildTree (completeTask s1 id s out) r =
      (buildTree s1 r).map (mapTree (completeUpd id s out)) :=
  ⟨buildTree_eq_of_perm s1 s2 r hperm hids hcr,
   fun id s out => buildTree_completeTask s1 id s out r⟩

/-- C7 witness: the two concrete stores, whose children completed in
opposite orders, rebuild the identical tree under root 0, and completion
updates only relabel that tree's nodes. -/
theorem tasktree_rebuild_witness :
    buildTree treeStoreA 0 = buildTree treeStoreB 0 ∧
    ∀ id s out, buildTree (completeTask treeStoreA id s out) 0 =
      (buildTree treeStoreA 0).map (mapTree (completeUpd id s out)) :=
  tasktree_rebuild treeStoreA treeStoreB 0
    (List.Perm.cons _ (List.Perm.swap _ _ _)) (by decide) (by decide)

end EnterpriseClaw
